import Mathlib

/-!
Shallow embedding of the `mem` crate of the emu8086 repository: the
`BusDeviceError` taxonomy, the two concrete stores (`Memory`,
`ReadOnlyMemory`), the default region operations of `RegionBusDevice`,
and the `MemoryMap` address router, together with theorems about them.

Bytes and addresses are modelled as `Nat`; fixed-capacity byte arrays as
`List Nat` whose length is the capacity; a `RangeInclusive<usize>` as a
pair `(start, end)`; dynamic dispatch over `dyn BusDevice` as an abstract
state type together with the read and write functions of that device;
panics as `Option.none`.
-/

set_option autoImplicit false

deriving instance DecidableEq for Except

/-- The error enumeration of src/mem/src/interface.rs. -/
inductive BusDeviceError where
  | AddressOutOfBounds (address : Nat) (size : Nat)
  | AddressNotWritable (address : Nat)
  | AddressNotMapped (address : Nat)
  deriving DecidableEq, Repr

namespace Memory

/-- `Memory::read`: `self.0.get(address).copied().ok_or(AddressOutOfBounds)`. -/
def read (data : List Nat) (address : Nat) : Except BusDeviceError Nat :=
  match data[address]? with
  | some b => Except.ok b
  | none => Except.error (BusDeviceError.AddressOutOfBounds address data.length)

/-- `Memory::write`: assigns through `self.0.get_mut(address)`, which
succeeds exactly when `address` is in bounds; otherwise the store
is untouched and `AddressOutOfBounds` is returned. -/
def write (data : List Nat) (address : Nat) (value : Nat) :
    List Nat × Except BusDeviceError Unit :=
  if address < data.length then (data.set address value, Except.ok ())
  else (data, Except.error (BusDeviceError.AddressOutOfBounds address data.length))

end Memory

namespace ReadOnlyMemory

/-- `ReadOnlyMemory::read`: identical to `Memory::read`. -/
def read (data : List Nat) (address : Nat) : Except BusDeviceError Nat :=
  match data[address]? with
  | some b => Except.ok b
  | none => Except.error (BusDeviceError.AddressOutOfBounds address data.length)

/-- `ReadOnlyMemory::write`: unconditionally `Err(AddressNotWritable{address})`,
with the store untouched. -/
def write (data : List Nat) (address : Nat) (_value : Nat) :
    List Nat × Except BusDeviceError Unit :=
  (data, Except.error (BusDeviceError.AddressNotWritable address))

end ReadOnlyMemory

/-- `RangeInclusive::contains` on a `(start, end)` pair of naturals. -/
def rangeContains (range : Nat × Nat) (address : Nat) : Bool :=
  range.1 ≤ address && address ≤ range.2

/-- `RegionBusDevice::read_region`: `SIZE` sequential single-byte reads at
`address`, `address + 1`, ..., assembled in order, stopping at the first
error. The device is abstracted by its read function. -/
def read_region (read : Nat → Except BusDeviceError Nat) :
    Nat → Nat → Except BusDeviceError (List Nat)
  | _, 0 => Except.ok []
  | address, size + 1 =>
    match read address with
    | Except.error e => Except.error e
    | Except.ok b =>
      match read_region read (address + 1) size with
      | Except.error e => Except.error e
      | Except.ok rest => Except.ok (b :: rest)

/-- `RegionBusDevice::write_region`: sequential single-byte writes of
`data[i]` at `address + i` in increasing order of `i`, stopping at the
first error. The device is abstracted by a state type `σ` and a write
function returning the updated state and the result. -/
def write_region {σ : Type} (write : σ → Nat → Nat → σ × Except BusDeviceError Unit) :
    σ → Nat → List Nat → σ × Except BusDeviceError Unit
  | s, _, [] => (s, Except.ok ())
  | s, address, b :: rest =>
    match write s address b with
    | (s2, Except.ok _) => write_region write s2 (address + 1) rest
    | (s2, Except.error e) => (s2, Except.error e)

/-- The state of the device after the first `k` of the single-byte writes
that `write_region` would perform (whether or not they succeed): used to
describe the intermediate states of a region write. -/
def write_first {σ : Type} (write : σ → Nat → Nat → σ × Except BusDeviceError Unit) :
    σ → Nat → List Nat → Nat → σ
  | s, _, _, 0 => s
  | s, _, [], _ + 1 => s
  | s, address, b :: rest, k + 1 => write_first write (write s address b).1 (address + 1) rest k

namespace MemoryMap

/-- `MemoryMap::mapping`: linear scan returning the first entry whose
range contains the address. Entries pair a `(start, end)` range with a
device of the abstract device-state type `δ`. -/
def mapping {δ : Type} (entries : List ((Nat × Nat) × δ)) (address : Nat) :
    Option ((Nat × Nat) × δ) :=
  entries.find? (fun e => rangeContains e.1 address)

/-- `MemoryMap::add_range`: asserts, for each existing entry, that the
existing range contains neither endpoint of the new range (a failed
assertion, i.e. a panic, is modelled as `none`), then appends the new
entry. -/
def add_range {δ : Type} (entries : List ((Nat × Nat) × δ)) (range : Nat × Nat)
    (bus_device : δ) : Option (List ((Nat × Nat) × δ)) :=
  if entries.any (fun e => rangeContains e.1 range.1 || rangeContains e.1 range.2) then
    none
  else
    some (entries ++ [(range, bus_device)])

/-- `<MemoryMap as BusDevice>::read`: look the address up; absent a
mapping fail with `AddressNotMapped`; otherwise delegate to the mapped
device (whose read function is `readD`) at `address - range.start`. -/
def read {δ : Type} (readD : δ → Nat → Except BusDeviceError Nat)
    (entries : List ((Nat × Nat) × δ)) (address : Nat) : Except BusDeviceError Nat :=
  match mapping entries address with
  | none => Except.error (BusDeviceError.AddressNotMapped address)
  | some (range, dev) => readD dev (address - range.1)

/-- `<MemoryMap as BusDevice>::write`: like `read` but through
`mut_mapping`, mutating in place the device of the first entry whose
range contains the address and delegating at `address - range.start`. -/
def write {δ : Type} (writeD : δ → Nat → Nat → δ × Except BusDeviceError Unit) :
    List ((Nat × Nat) × δ) → Nat → Nat →
      List ((Nat × Nat) × δ) × Except BusDeviceError Unit
  | [], address, _ => ([], Except.error (BusDeviceError.AddressNotMapped address))
  | (range, dev) :: rest, address, data =>
    if rangeContains range address then
      let step := writeD dev (address - range.1) data
      ((range, step.1) :: rest, step.2)
    else
      let step := write writeD rest address data
      ((range, dev) :: step.1, step.2)

end MemoryMap

/-- C3: a read-only store of any capacity answers every write, in-bounds or
not, with `AddressNotWritable` at that address — never `AddressOutOfBounds` —
and its contents are unchanged. -/
theorem C3_read_only_write_not_writable (data : List Nat) (address value : Nat) :
    ReadOnlyMemory.write data address value =
      (data, Except.error (BusDeviceError.AddressNotWritable address)) := rfl

/-- C4: for a store of capacity `S` (plain or read-only), `read a` succeeds
with the stored byte at index `a` exactly when `a < S`, and otherwise
returns `AddressOutOfBounds{a, S}`. -/
theorem C4_store_read_bounds (data : List Nat) (address : Nat) :
    (∀ h : address < data.length,
      Memory.read data address = Except.ok data[address] ∧
      ReadOnlyMemory.read data address = Except.ok data[address]) ∧
    (data.length ≤ address →
      Memory.read data address =
        Except.error (BusDeviceError.AddressOutOfBounds address data.length) ∧
      ReadOnlyMemory.read data address =
        Except.error (BusDeviceError.AddressOutOfBounds address data.length)) := by
  constructor
  · intro h
    simp [Memory.read, ReadOnlyMemory.read, List.getElem?_eq_getElem h]
  · intro h
    simp [Memory.read, ReadOnlyMemory.read, List.getElem?_eq_none h]

theorem C4_store_read_bounds_witness :
    (Memory.read [7, 8] 1 = Except.ok 8 ∧ ReadOnlyMemory.read [7, 8] 1 = Except.ok 8) ∧
    (Memory.read [7, 8] 2 = Except.error (BusDeviceError.AddressOutOfBounds 2 2) ∧
      ReadOnlyMemory.read [7, 8] 2 =
        Except.error (BusDeviceError.AddressOutOfBounds 2 2)) :=
  ⟨(C4_store_read_bounds [7, 8] 1).1 (by decide),
    (C4_store_read_bounds [7, 8] 2).2 (by decide)⟩

/-- C5: a plain store write at `a < S` succeeds, the written byte reads back,
and every other address keeps its prior byte; a write at `a ≥ S` leaves the
whole store unchanged and returns `AddressOutOfBounds{a, S}`. -/
theorem C5_memory_write_read (data : List Nat) (address value : Nat) :
    (address < data.length →
      (Memory.write data address value).2 = Except.ok () ∧
      Memory.read (Memory.write data address value).1 address = Except.ok value ∧
      ∀ b, b ≠ address →
        Memory.read (Memory.write data address value).1 b = Memory.read data b) ∧
    (data.length ≤ address →
      Memory.write data address value =
        (data, Except.error (BusDeviceError.AddressOutOfBounds address data.length))) := by
  constructor
  · intro h
    refine ⟨by simp [Memory.write, h], ?_, ?_⟩
    · simp [Memory.write, h, Memory.read, List.getElem?_set_self h]
    · intro b hb
      simp [Memory.write, h, Memory.read, List.getElem?_set_ne (Ne.symm hb)]
  · intro h
    simp [Memory.write, Nat.not_lt.mpr h]

theorem C5_memory_write_read_witness :
    ((Memory.write [7, 8] 0 5).2 = Except.ok () ∧
      Memory.read (Memory.write [7, 8] 0 5).1 0 = Except.ok 5 ∧
      Memory.read (Memory.write [7, 8] 0 5).1 1 = Memory.read [7, 8] 1) ∧
    Memory.write [7, 8] 2 5 =
      ([7, 8], Except.error (BusDeviceError.AddressOutOfBounds 2 2)) := by
  have h1 := (C5_memory_write_read [7, 8] 0 5).1 (by decide)
  have h2 := (C5_memory_write_read [7, 8] 2 5).2 (by decide)
  exact ⟨⟨h1.1, h1.2.1, h1.2.2 1 (by decide)⟩, h2⟩

/-- C8: a region read of length zero and a region write of the empty byte
sequence succeed at every start address against every device, with the
device state untouched, because no single-byte operation is attempted. -/
theorem C8_zero_length_region {σ : Type} (read : Nat → Except BusDeviceError Nat)
    (write : σ → Nat → Nat → σ × Except BusDeviceError Unit) (s : σ) (address : Nat) :
    read_region read address 0 = Except.ok [] ∧
    write_region write s address [] = (s, Except.ok ()) := ⟨rfl, rfl⟩

/-- `List.find?` returns the element at the first index satisfying the
test, when every earlier index fails it. -/
theorem find?_eq_of_first {α : Type} (p : α → Bool) (l : List α) (i : Nat) (a : α)
    (hi : l[i]? = some a) (hp : p a = true)
    (hfirst : ∀ j, j < i → ∀ b, l[j]? = some b → p b = false) :
    l.find? p = some a := by
  induction l generalizing i with
  | nil => simp at hi
  | cons x xs ih =>
    cases i with
    | zero =>
      simp only [List.getElem?_cons_zero, Option.some_inj] at hi
      subst hi
      exact List.find?_cons_of_pos xs hp
    | succ k =>
      have hx : p x = false := hfirst 0 (Nat.succ_pos k) x (by simp)
      rw [List.find?_cons_of_neg xs (by simp [hx])]
      exact ih k (by simpa using hi)
        (fun j hj b hb => hfirst (j + 1) (Nat.succ_lt_succ hj) b (by simpa using hb))

/-- `MemoryMap.add_range` panics exactly when some existing range contains
an endpoint of the new range. -/
theorem add_range_eq_none_iff {δ : Type} (entries : List ((Nat × Nat) × δ))
    (range : Nat × Nat) (dev : δ) :
    MemoryMap.add_range entries range dev = none ↔
      ∃ en ∈ entries,
        rangeContains en.1 range.1 = true ∨ rangeContains en.1 range.2 = true := by
  have hany : (entries.any
      (fun e => rangeContains e.1 range.1 || rangeContains e.1 range.2)) = true ↔
      ∃ en ∈ entries,
        rangeContains en.1 range.1 = true ∨ rangeContains en.1 range.2 = true := by
    simp [List.any_eq_true]
  rw [MemoryMap.add_range]
  split
  · next h => simpa using hany.mp h
  · next h =>
    simp only [reduceCtorEq, false_iff]
    intro hex
    exact h (hany.mpr hex)

/-- When no existing range contains either endpoint of the new range,
`MemoryMap.add_range` appends the new entry. -/
theorem add_range_eq_append {δ : Type} (entries : List ((Nat × Nat) × δ))
    (range : Nat × Nat) (dev : δ)
    (h : ∀ en ∈ entries,
      rangeContains en.1 range.1 = false ∧ rangeContains en.1 range.2 = false) :
    MemoryMap.add_range entries range dev = some (entries ++ [(range, dev)]) := by
  rw [MemoryMap.add_range]
  have : (entries.any
      (fun e => rangeContains e.1 range.1 || rangeContains e.1 range.2)) = false := by
    rw [List.any_eq_false]
    intro en hen
    simp [(h en hen).1, (h en hen).2]
  simp [this]

/-- C1: a router read at an address contained in no entry fails with
`AddressNotMapped` at that address; otherwise it delegates to the device of
the first entry (in insertion order) whose range contains the address,
passing `address - range.start` and returning the result of that device,
success or error, unchanged. -/
theorem C1_router_read_delegates {δ : Type} (readD : δ → Nat → Except BusDeviceError Nat)
    (entries : List ((Nat × Nat) × δ)) (address : Nat) :
    ((∀ en ∈ entries, rangeContains en.1 address = false) →
      MemoryMap.read readD entries address =
        Except.error (BusDeviceError.AddressNotMapped address)) ∧
    (∀ range dev, MemoryMap.mapping entries address = some (range, dev) →
      MemoryMap.read readD entries address = readD dev (address - range.1)) ∧
    (∀ (i : Nat) (range : Nat × Nat) (dev : δ), entries[i]? = some (range, dev) →
      rangeContains range address = true →
      (∀ j, j < i → ∀ (r2 : Nat × Nat) (d2 : δ), entries[j]? = some (r2, d2) →
        rangeContains r2 address = false) →
      MemoryMap.read readD entries address = readD dev (address - range.1)) := by
  refine ⟨?_, ?_, ?_⟩
  · intro hall
    have hnone : MemoryMap.mapping entries address = none := by
      rw [MemoryMap.mapping, List.find?_eq_none]
      intro en hen
      simp [hall en hen]
    rw [MemoryMap.read, hnone]
  · intro range dev hmap
    rw [MemoryMap.read, hmap]
  · intro i range dev hi hc hfirst
    have hmap : MemoryMap.mapping entries address = some (range, dev) :=
      find?_eq_of_first _ entries i (range, dev) hi hc
        (fun j hj b hb => hfirst j hj b.1 b.2 (by simpa using hb))
    rw [MemoryMap.read, hmap]

theorem C1_router_read_delegates_witness :
    MemoryMap.read Memory.read [((4, 6), [7, 8, 9])] 9 =
      Except.error (BusDeviceError.AddressNotMapped 9) ∧
    MemoryMap.read Memory.read [((4, 6), [7, 8, 9])] 5 = Memory.read [7, 8, 9] 1 :=
  ⟨(C1_router_read_delegates Memory.read [((4, 6), [7, 8, 9])] 9).1 (by decide),
    (C1_router_read_delegates Memory.read [((4, 6), [7, 8, 9])] 5).2.1
      (4, 6) [7, 8, 9] (by rfl)⟩

/-- C2: router insertion is rejected exactly when some existing range
contains the start or the end of the new range; when neither endpoint is
contained in any existing range, the new entry is appended, even when the
new range strictly encloses an existing one. -/
theorem C2_add_range_endpoint_check {δ : Type} (entries : List ((Nat × Nat) × δ))
    (range : Nat × Nat) (dev : δ) :
    (MemoryMap.add_range entries range dev = none ↔
      ∃ en ∈ entries,
        rangeContains en.1 range.1 = true ∨ rangeContains en.1 range.2 = true) ∧
    ((∀ en ∈ entries,
        rangeContains en.1 range.1 = false ∧ rangeContains en.1 range.2 = false) →
      MemoryMap.add_range entries range dev = some (entries ++ [(range, dev)])) :=
  ⟨add_range_eq_none_iff entries range dev, add_range_eq_append entries range dev⟩

theorem C2_add_range_endpoint_check_witness :
    MemoryMap.add_range [((2, 3), ([9, 9] : List Nat))] (0, 5) [1, 1, 1, 1, 1, 1] =
      some [((2, 3), [9, 9]), ((0, 5), [1, 1, 1, 1, 1, 1])] ∧
    rangeContains (2, 3) 2 = true ∧ rangeContains (0, 5) 2 = true :=
  ⟨(C2_add_range_endpoint_check [((2, 3), ([9, 9] : List Nat))] (0, 5)
      [1, 1, 1, 1, 1, 1]).2 (by decide), by decide, by decide⟩

/-- When every byte of the requested region reads successfully, the region
read succeeds and assembles the bytes in order. -/
theorem read_region_ok (read : Nat → Except BusDeviceError Nat) (address n : Nat)
    (hall : ∀ i, i < n → ∃ b, read (address + i) = Except.ok b) :
    ∃ l, read_region read address n = Except.ok l ∧ l.length = n ∧
      ∀ i, i < n → read (address + i) = Except.ok (l.getD i 0) := by
  induction n generalizing address with
  | zero => exact ⟨[], rfl, rfl, fun i hi => absurd hi (Nat.not_lt_zero i)⟩
  | succ m ih =>
    obtain ⟨b, hb⟩ := hall 0 (Nat.succ_pos m)
    rw [Nat.add_zero] at hb
    obtain ⟨l, hl, hlen, hread⟩ := ih (address + 1) (fun i hi => by
      have h2 := hall (i + 1) (Nat.succ_lt_succ hi)
      rwa [show address + (i + 1) = address + 1 + i from by omega] at h2)
    refine ⟨b :: l, ?_, by simp [hlen], ?_⟩
    · simp [read_region, hb, hl]
    · intro i hi
      cases i with
      | zero => simpa using hb
      | succ k =>
        have h3 := hread k (Nat.lt_of_succ_lt_succ hi)
        rw [show address + (k + 1) = address + 1 + k from by omega]
        simpa using h3

/-- A region read propagates the error of the first failing byte read. -/
theorem read_region_error (read : Nat → Except BusDeviceError Nat)
    (address n k : Nat) (e : BusDeviceError) (hk : k < n)
    (hok : ∀ i, i < k → ∃ b, read (address + i) = Except.ok b)
    (hfail : read (address + k) = Except.error e) :
    read_region read address n = Except.error e := by
  induction n generalizing address k with
  | zero => omega
  | succ m ih =>
    cases k with
    | zero =>
      rw [Nat.add_zero] at hfail
      simp [read_region, hfail]
    | succ j =>
      obtain ⟨b, hb⟩ := hok 0 (Nat.succ_pos j)
      rw [Nat.add_zero] at hb
      have hrec : read_region read (address + 1) m = Except.error e := by
        refine ih (address + 1) j (Nat.lt_of_succ_lt_succ hk) ?_ ?_
        · intro i hi
          have h2 := hok (i + 1) (Nat.succ_lt_succ hi)
          rwa [show address + (i + 1) = address + 1 + i from by omega] at h2
        · rwa [show address + (j + 1) = address + 1 + j from by omega] at hfail
      simp [read_region, hb, hrec]

/-- C7: a region read of `n` bytes performs `n` sequential single-byte reads
at `address`, `address + 1`, ..., assembling the results in order; when some
byte fails it returns, unchanged, the error produced by the read of the
first failing byte — an error describing that byte, not the start of the
request. -/
theorem C7_read_region_sequential (read : Nat → Except BusDeviceError Nat)
    (address n : Nat) :
    ((∀ i, i < n → ∃ b, read (address + i) = Except.ok b) →
      ∃ l, read_region read address n = Except.ok l ∧ l.length = n ∧
        ∀ i, i < n → read (address + i) = Except.ok (l.getD i 0)) ∧
    (∀ k e, k < n → (∀ i, i < k → ∃ b, read (address + i) = Except.ok b) →
      read (address + k) = Except.error e →
      read_region read address n = Except.error e) :=
  ⟨read_region_ok read address n,
    fun k e hk hok hfail => read_region_error read address n k e hk hok hfail⟩

theorem C7_read_region_sequential_witness :
    (∃ l, read_region (Memory.read [7, 8, 9]) 1 2 = Except.ok l ∧ l.length = 2 ∧
      ∀ i, i < 2 → Memory.read [7, 8, 9] (1 + i) = Except.ok (l.getD i 0)) ∧
    read_region (Memory.read [7, 8, 9]) 2 2 =
      Except.error (BusDeviceError.AddressOutOfBounds 3 3) := by
  constructor
  · refine (C7_read_region_sequential (Memory.read [7, 8, 9]) 1 2).1 ?_
    intro i hi
    interval_cases i
    · exact ⟨8, rfl⟩
    · exact ⟨9, rfl⟩
  · refine (C7_read_region_sequential (Memory.read [7, 8, 9]) 2 2).2 1 _ (by decide)
      ?_ (by rfl)
    intro i hi
    interval_cases i
    exact ⟨9, rfl⟩

/-- C6: a region write performs its single-byte writes in increasing offset
order and is not atomic: when the write at offset `k` is the first to fail,
the earlier bytes are already committed, the later writes are not attempted,
and the first error is returned. -/
theorem C6_write_region_not_atomic {σ : Type}
    (write : σ → Nat → Nat → σ × Except BusDeviceError Unit) (s : σ)
    (address k : Nat) (data : List Nat) (e : BusDeviceError)
    (hk : k < data.length)
    (hok : ∀ i, i < k →
      (write (write_first write s address data i) (address + i) (data.getD i 0)).2 =
        Except.ok ())
    (hfail :
      (write (write_first write s address data k) (address + k) (data.getD k 0)).2 =
        Except.error e) :
    write_region write s address data =
      ((write (write_first write s address data k) (address + k) (data.getD k 0)).1,
        Except.error e) := by
  induction data generalizing s address k with
  | nil => simp at hk
  | cons b rest ih =>
    cases k with
    | zero =>
      rw [Nat.add_zero] at hfail ⊢
      rcases hw : write s address b with ⟨s2, r2⟩
      have hf2 : r2 = Except.error e := by
        have h2 := hfail
        rw [show write_first write s address (b :: rest) 0 = s from rfl,
          show (b :: rest).getD 0 0 = b from rfl, hw] at h2
        exact h2
      subst hf2
      simp [write_region, write_first, hw]
    | succ j =>
      have h0 := hok 0 (Nat.succ_pos j)
      rw [Nat.add_zero] at h0
      rcases hw : write s address b with ⟨s2, r2⟩
      have h02 : r2 = Except.ok () := by
        have h2 := h0
        rw [show write_first write s address (b :: rest) 0 = s from rfl,
          show (b :: rest).getD 0 0 = b from rfl, hw] at h2
        exact h2
      subst h02
      have hwf : ∀ i, write_first write s address (b :: rest) (i + 1) =
          write_first write s2 (address + 1) rest i := by
        intro i
        simp [write_first, hw]
      have hok2 : ∀ i, i < j →
          (write (write_first write s2 (address + 1) rest i) (address + 1 + i)
            (rest.getD i 0)).2 = Except.ok () := by
        intro i hi
        have h2 := hok (i + 1) (Nat.succ_lt_succ hi)
        rw [hwf i, show address + (i + 1) = address + 1 + i from by omega] at h2
        simpa using h2
      have hfail2 :
          (write (write_first write s2 (address + 1) rest j) (address + 1 + j)
            (rest.getD j 0)).2 = Except.error e := by
        have h2 := hfail
        rw [hwf j, show address + (j + 1) = address + 1 + j from by omega] at h2
        simpa using h2
      have hrec := ih s2 (address + 1) j (by simpa using Nat.lt_of_succ_lt_succ hk)
        hok2 hfail2
      have hl : write_region write s address (b :: rest) =
          write_region write s2 (address + 1) rest := by
        simp [write_region, hw]
      rw [hl, hwf j, show address + (j + 1) = address + 1 + j from by omega,
        show (b :: rest).getD (j + 1) 0 = rest.getD j 0 from rfl]
      exact hrec

theorem C6_write_region_not_atomic_witness :
    write_region Memory.write [0, 0] 1 [7, 8] =
      ([0, 7], Except.error (BusDeviceError.AddressOutOfBounds 2 2)) := by
  have h := C6_write_region_not_atomic Memory.write [0, 0] 1 1 [7, 8]
    (BusDeviceError.AddressOutOfBounds 2 2) (by decide)
    (fun i hi => by interval_cases i; rfl) (by rfl)
  simpa using h

/-- A router write at `a` does not change what a read at `b` sees, provided
no single entry contains both `a` and `b`. -/
theorem write_read_frame {δ : Type} (readD : δ → Nat → Except BusDeviceError Nat)
    (writeD : δ → Nat → Nat → δ × Except BusDeviceError Unit)
    (entries : List ((Nat × Nat) × δ)) (a b v : Nat)
    (hab : ∀ en ∈ entries,
      ¬(rangeContains en.1 a = true ∧ rangeContains en.1 b = true)) :
    MemoryMap.read readD (MemoryMap.write writeD entries a v).1 b =
      MemoryMap.read readD entries b := by
  induction entries with
  | nil => rfl
  | cons hd tl ih =>
    obtain ⟨range, dev⟩ := hd
    by_cases hca : rangeContains range a = true
    · have hcb : rangeContains range b = false := by
        have hno := hab (range, dev) (List.mem_cons_self _ _)
        cases hb2 : rangeContains range b
        · rfl
        · exact absurd ⟨hca, hb2⟩ hno
      simp [MemoryMap.write, hca, MemoryMap.read, MemoryMap.mapping,
        List.find?_cons, hcb]
    · have hab2 : ∀ en ∈ tl,
          ¬(rangeContains en.1 a = true ∧ rangeContains en.1 b = true) :=
        fun en he => hab en (List.mem_cons_of_mem _ he)
      by_cases hcb : rangeContains range b = true
      · simp [MemoryMap.write, hca, MemoryMap.read, MemoryMap.mapping,
          List.find?_cons, hcb]
      · have hstep : MemoryMap.write writeD ((range, dev) :: tl) a v =
            ((range, dev) :: (MemoryMap.write writeD tl a v).1,
              (MemoryMap.write writeD tl a v).2) := by
          simp [MemoryMap.write, hca]
        rw [hstep]
        have hcb2 : rangeContains range b = false := by simpa using hcb
        have hskip : ∀ (l : List ((Nat × Nat) × δ)),
            MemoryMap.read readD ((range, dev) :: l) b = MemoryMap.read readD l b := by
          intro l
          simp [MemoryMap.read, MemoryMap.mapping, List.find?_cons, hcb2]
        rw [hskip, hskip]
        exact ih hab2

/-- A router write at `a` leaves every entry whose range does not contain
`a` exactly as it was. -/
theorem write_preserves_entry {δ : Type}
    (writeD : δ → Nat → Nat → δ × Except BusDeviceError Unit)
    (entries : List ((Nat × Nat) × δ)) (a v : Nat) (j : Nat)
    (en : (Nat × Nat) × δ) (hj : entries[j]? = some en)
    (hna : rangeContains en.1 a = false) :
    (MemoryMap.write writeD entries a v).1[j]? = some en := by
  induction entries generalizing j with
  | nil => simp at hj
  | cons hd tl ih =>
    obtain ⟨range, dev⟩ := hd
    by_cases hca : rangeContains range a = true
    · cases j with
      | zero =>
        simp only [List.getElem?_cons_zero, Option.some_inj] at hj
        rw [← hj] at hna
        rw [hca] at hna
        cases hna
      | succ k =>
        simp only [MemoryMap.write, hca, if_true]
        simpa using hj
    · cases j with
      | zero =>
        simp only [List.getElem?_cons_zero, Option.some_inj] at hj
        simp [MemoryMap.write, hca, ← hj]
      | succ k =>
        have hrec := ih k (by simpa using hj)
        simp only [MemoryMap.write, hca, if_false]
        simpa using hrec

/-- C9: in a router whose entry ranges are pairwise disjoint, a write routed
to an address covered by one entry leaves every other entry untouched, and
reads at addresses covered by other entries see the same result before and
after the write. -/
theorem C9_disjoint_entries_frame {δ : Type}
    (readD : δ → Nat → Except BusDeviceError Nat)
    (writeD : δ → Nat → Nat → δ × Except BusDeviceError Unit)
    (entries : List ((Nat × Nat) × δ)) (a b v : Nat) (i j : Nat)
    (hi : i < entries.length) (hj : j < entries.length) (hij : i ≠ j)
    (hdisj : entries.Pairwise (fun e f => ∀ x,
      ¬(rangeContains e.1 x = true ∧ rangeContains f.1 x = true)))
    (ha : rangeContains entries[i].1 a = true)
    (hb : rangeContains entries[j].1 b = true) :
    MemoryMap.read readD (MemoryMap.write writeD entries a v).1 b =
      MemoryMap.read readD entries b ∧
    (MemoryMap.write writeD entries a v).1[j]? = entries[j]? := by
  have hpair := List.pairwise_iff_getElem.mp hdisj
  have hab : ∀ en ∈ entries,
      ¬(rangeContains en.1 a = true ∧ rangeContains en.1 b = true) := by
    intro en he hcon
    obtain ⟨hea, heb⟩ := hcon
    obtain ⟨k, hk, hke⟩ := List.mem_iff_getElem.mp he
    subst hke
    by_cases hki : k = i
    · subst hki
      rcases Nat.lt_or_gt_of_ne hij with h1 | h1
      · exact hpair k j hk hj h1 b ⟨heb, hb⟩
      · exact hpair j k hj hk h1 b ⟨hb, heb⟩
    · rcases Nat.lt_or_gt_of_ne hki with h1 | h1
      · exact hpair k i hk hi h1 a ⟨hea, ha⟩
      · exact hpair i k hi hk h1 a ⟨ha, hea⟩
  refine ⟨write_read_frame readD writeD entries a b v hab, ?_⟩
  have hna : rangeContains entries[j].1 a = false := by
    cases hc : rangeContains entries[j].1 a
    · rfl
    · exfalso
      rcases Nat.lt_or_gt_of_ne hij with h1 | h1
      · exact hpair i j hi hj h1 a ⟨ha, hc⟩
      · exact hpair j i hj hi h1 a ⟨hc, ha⟩
  rw [List.getElem?_eq_getElem hj]
  exact write_preserves_entry writeD entries a v j entries[j]
    (List.getElem?_eq_getElem hj) hna

theorem C9_disjoint_entries_frame_witness :
    MemoryMap.read Memory.read
        (MemoryMap.write Memory.write
          [((0, 1), [10, 11]), ((2, 3), [20, 21])] 0 99).1 2 =
      MemoryMap.read Memory.read [((0, 1), [10, 11]), ((2, 3), [20, 21])] 2 ∧
    (MemoryMap.write Memory.write
        [((0, 1), [10, 11]), ((2, 3), [20, 21])] 0 99).1[1]? =
      ([((0, 1), [10, 11]), ((2, 3), [20, 21])] :
        List ((Nat × Nat) × List Nat))[1]? := by
  refine C9_disjoint_entries_frame Memory.read Memory.write
    [((0, 1), [10, 11]), ((2, 3), [20, 21])] 0 2 99 0 1
    (by decide) (by decide) (by decide) ?_ (by decide) (by decide)
  refine List.pairwise_iff_getElem.mpr ?_
  intro i j hi hj hij x hx
  obtain ⟨h1, h2⟩ := hx
  simp only [List.length_cons, List.length_nil] at hi hj
  interval_cases i <;> interval_cases j
  simp [rangeContains] at h1 h2
  omega

/-- C10 counterexample: inserting the empty range `5..=3` into a router that
already maps `0..=10` is rejected, because the existing range contains the
start (and the end) of the new range; so insertion of an empty range does
not always succeed. -/
theorem C10_empty_range_counterexample :
    3 < 5 ∧
    MemoryMap.add_range [((0, 10), ([0] : List Nat))] (5, 3) [] = none := by
  constructor
  · decide
  · rfl

/-- An empty inclusive range (start exceeding end) contains no address. -/
theorem rangeContains_empty (s e : Nat) (hse : e < s) (a : Nat) :
    rangeContains (s, e) a = false := by
  simp only [rangeContains]
  rcases Nat.lt_or_ge a s with h1 | h1
  · simp [Nat.not_le.mpr h1]
  · have h2 : ¬ a ≤ e := by omega
    simp [h2]

/-- Appending an entry whose range contains no address leaves router writes
routed exactly as before, with the dead entry carried along unchanged. -/
theorem write_append_dead {δ : Type}
    (writeD : δ → Nat → Nat → δ × Except BusDeviceError Unit)
    (entries : List ((Nat × Nat) × δ)) (rs re : Nat) (ed : δ) (a v : Nat)
    (hE : rangeContains (rs, re) a = false) :
    MemoryMap.write writeD (entries ++ [((rs, re), ed)]) a v =
      ((MemoryMap.write writeD entries a v).1 ++ [((rs, re), ed)],
        (MemoryMap.write writeD entries a v).2) := by
  induction entries with
  | nil => simp [MemoryMap.write, hE]
  | cons hd tl ih =>
    obtain ⟨range, dev⟩ := hd
    by_cases hc : rangeContains range a = true
    · simp [MemoryMap.write, hc]
    · simp [MemoryMap.write, hc, ih]

/-- C10 (amended): inserting an empty inclusive range (start exceeding end)
is rejected exactly when some existing range contains its start or its end,
like any other insertion; once inserted, the resulting entry is dead: it
contains no address, it never fires the overlap check of later insertions,
and lookup, read and write behave as if it were absent. -/
theorem C10_empty_range_entry {δ : Type} (entries : List ((Nat × Nat) × δ))
    (s e : Nat) (hse : e < s) (d : δ) :
    (MemoryMap.add_range entries (s, e) d = none ↔
      ∃ en ∈ entries,
        rangeContains en.1 s = true ∨ rangeContains en.1 e = true) ∧
    (∀ a, rangeContains (s, e) a = false) ∧
    (∀ rng d2, (MemoryMap.add_range (entries ++ [((s, e), d)]) rng d2).isNone =
      (MemoryMap.add_range entries rng d2).isNone) ∧
    (∀ a, MemoryMap.mapping (entries ++ [((s, e), d)]) a =
      MemoryMap.mapping entries a) ∧
    (∀ (readD : δ → Nat → Except BusDeviceError Nat) a,
      MemoryMap.read readD (entries ++ [((s, e), d)]) a =
        MemoryMap.read readD entries a) ∧
    (∀ (writeD : δ → Nat → Nat → δ × Except BusDeviceError Unit) a v,
      MemoryMap.write writeD (entries ++ [((s, e), d)]) a v =
        ((MemoryMap.write writeD entries a v).1 ++ [((s, e), d)],
          (MemoryMap.write writeD entries a v).2)) := by
  have hempty : ∀ a, rangeContains (s, e) a = false := rangeContains_empty s e hse
  have hmap : ∀ a, MemoryMap.mapping (entries ++ [((s, e), d)]) a =
      MemoryMap.mapping entries a := by
    intro a
    simp [MemoryMap.mapping, List.find?_append, List.find?_cons, hempty a]
  refine ⟨?_, hempty, ?_, hmap, ?_, ?_⟩
  · exact add_range_eq_none_iff entries (s, e) d
  · intro rng d2
    have hpE : (rangeContains (s, e) rng.1 || rangeContains (s, e) rng.2) = false := by
      rw [hempty rng.1, hempty rng.2]
      rfl
    simp only [MemoryMap.add_range, List.any_append, List.any_cons, List.any_nil,
      hempty rng.1, hempty rng.2, Bool.false_or, Bool.or_false]
    split
    · rfl
    · rfl
  · intro readD a
    simp [MemoryMap.read, hmap a]
  · intro writeD a v
    exact write_append_dead writeD entries s e d a v (hempty a)

theorem C10_empty_range_entry_witness :
    rangeContains (5, 3) 4 = false ∧
    MemoryMap.mapping ([((0, 1), ([6, 6] : List Nat))] ++ [((5, 3), [])]) 0 =
      MemoryMap.mapping [((0, 1), ([6, 6] : List Nat))] 0 ∧
    (MemoryMap.add_range ([((0, 1), ([6, 6] : List Nat))] ++ [((5, 3), [])])
        (2, 3) [0, 0]).isNone =
      (MemoryMap.add_range [((0, 1), ([6, 6] : List Nat))] (2, 3) [0, 0]).isNone := by
  have h := C10_empty_range_entry [((0, 1), ([6, 6] : List Nat))] 5 3 (by decide) []
  exact ⟨h.2.1 4, h.2.2.2.1 0, h.2.2.1 (2, 3) [0, 0]⟩

